import Mathlib

/-!
Verification of the file-encryption engine in `linux_encrypter.py`.

The program is shallowly embedded: file paths are strings, byte strings are
lists of naturals, the filesystem is a function from paths to optional entries
(a regular file with contents and a permission mode, or a directory).  The
external cryptographic library (AES-GCM / ChaCha20-Poly1305, SHA-256,
HMAC-SHA256, the random generator) is abstracted into a parameter record
`Prims`; the properties the theorems need from the AEAD cipher (round trip,
tag length, authenticity) are stated as explicit predicates and assumed as
hypotheses, and concrete toy instantiations are supplied for witnesses.
-/

namespace LinuxEncrypter

/-- Byte strings: lists of naturals (each byte is a value `< 256` where the
concrete program is concerned; the claims do not depend on the bound). -/
abbrev Bytes := List Nat

/-- File paths, as the Python code manipulates them: plain strings. -/
abbrev FPath := String

/-- A filesystem entry: a regular file with contents and permission mode,
or a directory. -/
inductive Entry where
  | file (data : Bytes) (mode : Nat)
  | dir
deriving DecidableEq, Repr

/-- The filesystem: a partial map from paths to entries. -/
abbrev FS := FPath → Option Entry

/-- Errors the Python runtime can raise in the modelled fragment.
`authenticationFailed` is the AEAD tag-verification failure
(pycryptodome's `ValueError: MAC check failed`); `malformedContainer`
is the error kind the specification document names for short containers
(the source never raises it, which is exactly what claim C5 is about). -/
inductive Err where
  | fileNotFound (p : FPath)
  | isADirectory (p : FPath)
  | ioError (msg : String)
  | authenticationFailed
  | malformedContainer
deriving DecidableEq, Repr

/-- One line of the program's log, structured: `logging.info('Encrypted …')`,
`logging.info('Decrypted …')` and `logging.error('Failed …')` respectively. -/
inductive LogEvent where
  | encrypted (p : FPath)
  | decrypted (p : FPath)
  | failed (p : FPath) (e : Err)
deriving DecidableEq, Repr

/-- The world state threaded through the engine: the filesystem plus a
counter indexing calls to the random generator. -/
structure World where
  fs : FS
  rng : Nat

/-- The external primitives the program calls, abstracted: the two AEAD
ciphers (`encryptAndDigest key nonce plaintext = (ciphertext, tag)`,
`decryptAndVerify key nonce ciphertext tag`), the hash and MAC used for key
derivation, and the random generator (`rand i k` is the `k`-byte output of
the `i`-th call to `get_random_bytes`). -/
structure AEAD where
  encryptAndDigest : Bytes → Bytes → Bytes → Bytes × Bytes
  decryptAndVerify : Bytes → Bytes → Bytes → Bytes → Option Bytes

structure Prims where
  gcm : AEAD
  chacha : AEAD
  sha256 : Bytes → Bytes
  hmacSha256 : Bytes → Bytes → Bytes
  rand : Nat → Nat → Bytes

/-- AEAD functional correctness: decrypting with the tag produced by
encryption recovers the plaintext. -/
def AEAD.RoundTrip (A : AEAD) : Prop :=
  ∀ k n m, A.decryptAndVerify k n (A.encryptAndDigest k n m).1
      (A.encryptAndDigest k n m).2 = some m

/-- The cipher produces 16-byte tags (true of both GCM and Poly1305). -/
def AEAD.TagLen16 (A : AEAD) : Prop :=
  ∀ k n m, (A.encryptAndDigest k n m).2.length = 16

/-- The ciphertext has the plaintext's length (true of both stream-style
modes the program selects between). -/
def AEAD.CtLenEq (A : AEAD) : Prop :=
  ∀ k n m, (A.encryptAndDigest k n m).1.length = m.length

/-- Authenticity: for a fixed key, nonce and ciphertext at most one tag
verifies (GCM/Poly1305 verification recomputes the unique tag and compares). -/
def AEAD.AuthStrict (A : AEAD) : Prop :=
  ∀ k n c t t', (A.decryptAndVerify k n c t).isSome →
    (A.decryptAndVerify k n c t').isSome → t = t'

/-- Verification never succeeds on a tag that is not 16 bytes long
(the cipher compares against its 16-byte computed tag). -/
def AEAD.ValidTagLen (A : AEAD) : Prop :=
  ∀ k n c t, (A.decryptAndVerify k n c t).isSome → t.length = 16

/-! ### Configuration (the `CONFIG` dict) -/

def CONFIG_keystore : FPath := "/etc/.cryptokeys"

def CONFIG_exclude : List FPath :=
  ["/proc/", "/sys/", "/dev/", "/run/", "/boot/", "/etc/.cryptokeys"]

def CONFIG_extensions : List String := [".enc"]

def CONFIG_algo : String := "AES-256-GCM"

/-! ### Filesystem primitives (`open`, `os.remove`, `os.rename`, `os.chmod`) -/

/-- `open(p, 'rb').read()`: the file's bytes, or the exception `open` raises. -/
def readEntry (fs : FS) (p : FPath) : Except Err Bytes :=
  match fs p with
  | some (.file d _) => .ok d
  | some .dir => .error (.isADirectory p)
  | none => .error (.fileNotFound p)

/-- `open(p, 'wb')` followed by writing `d`: truncates an existing regular
file (keeping its mode) or creates a new one with the default mode `0o644`;
raises if `p` is a directory. -/
def writeEntry (fs : FS) (p : FPath) (d : Bytes) : Except Err FS :=
  match fs p with
  | some .dir => .error (.isADirectory p)
  | some (.file _ m) => .ok (fun q => if q = p then some (.file d m) else fs q)
  | none => .ok (fun q => if q = p then some (.file d 0o644) else fs q)

/-- `os.remove p`: deletes a regular file; raises otherwise. -/
def removeEntry (fs : FS) (p : FPath) : Except Err FS :=
  match fs p with
  | some (.file _ _) => .ok (fun q => if q = p then none else fs q)
  | some .dir => .error (.isADirectory p)
  | none => .error (.fileNotFound p)

/-- `os.rename src dst`: moves the entry at `src` onto `dst`, overwriting a
regular file there; raises if `src` is missing or `dst` is a directory. -/
def renameEntry (fs : FS) (src dst : FPath) : Except Err FS :=
  match fs src with
  | none => .error (.fileNotFound src)
  | some e =>
    match fs dst with
    | some .dir => .error (.isADirectory dst)
    | _ => .ok (fun q => if q = dst then some e else if q = src then none else fs q)

/-! ### KeyStore (`_init_keystore`) -/

/-- `path.encode()`: the UTF-8 bytes of a path string. -/
def pathBytes (p : FPath) : Bytes := p.toUTF8.data.toList.map (fun b => b.toNat)

/-- `CryptoEngine._init_keystore`: read up to 32 bytes from the keystore
file; on `FileNotFoundError` generate 32 random bytes, write them there and
`chmod 0o600` the file.  Any other exception (e.g. the keystore path being a
directory) propagates. -/
def init_keystore (P : Prims) (w : World) : Except Err (Bytes × World) :=
  match w.fs CONFIG_keystore with
  | some (.file d _) => .ok (d.take 32, w)
  | some .dir => .error (.isADirectory CONFIG_keystore)
  | none =>
    let key := P.rand w.rng 32
    let fs1 : FS :=
      fun q => if q = CONFIG_keystore then some (.file key 0o644) else w.fs q
    let fs2 : FS :=
      fun q => if q = CONFIG_keystore then some (.file key 0o600) else fs1 q
    .ok (key, ⟨fs2, w.rng + 1⟩)

/-! ### CryptoEngine state and key derivation -/

structure CryptoEngine where
  master_key : Bytes
  key_cache : List (FPath × Bytes)
deriving DecidableEq, Repr

/-- `CryptoEngine()` — `__init__` loads the master key and starts with an
empty derived-key cache. -/
def newEngine (P : Prims) (w : World) : Except Err (CryptoEngine × World) :=
  match init_keystore P w with
  | .error e => .error e
  | .ok (k, w') => .ok (⟨k, []⟩, w')

/-- Lookup in the `key_cache` dict. -/
def cacheLookup : List (FPath × Bytes) → FPath → Option Bytes
  | [], _ => none
  | (q, v) :: rest, p => if p = q then some v else cacheLookup rest p

/-- `CryptoEngine._derive_key`: return the cached key if present; otherwise
`HMAC-SHA256(master_key, SHA256(path.encode()))`, cached under `path`. -/
def derive_key (P : Prims) (e : CryptoEngine) (p : FPath) :
    Bytes × CryptoEngine :=
  match cacheLookup e.key_cache p with
  | some k => (k, e)
  | none =>
    let path_hash := P.sha256 (pathBytes p)
    let key := P.hmacSha256 e.master_key path_hash
    (key, ⟨e.master_key, (p, key) :: e.key_cache⟩)

/-! ### ContainerCodec -/

/-- The three sequential reads in `decrypt_file`:
`nonce = f.read(12)`, `tag = f.read(16)`, `ciphertext = f.read()`. -/
def decodeContainer (raw : Bytes) : Bytes × Bytes × Bytes :=
  (raw.take 12, (raw.drop 12).take 16, (raw.drop 12).drop 16)

/-- The cipher `CONFIG['algo']` selects. -/
def selectCipher (P : Prims) : AEAD :=
  if CONFIG_algo = "AES-256-GCM" then P.gcm else P.chacha

/-! ### FileTransform (`encrypt_file`, `decrypt_file`)

Both methods wrap their whole body in `try`/`except Exception`, logging
either a success line or a `Failed` line; they never re-raise.  The embedded
functions therefore return totally: the updated engine, the world as left by
the steps that ran before any failure, and the single log line. -/

def encrypt_file (P : Prims) (e : CryptoEngine) (w : World) (path : FPath) :
    CryptoEngine × World × List LogEvent :=
  match readEntry w.fs path with
  | .error er => (e, w, [.failed path er])
  | .ok data =>
    let ke := derive_key P e path
    let nonce := P.rand w.rng 12
    let rng1 := w.rng + 1
    let cipher := selectCipher P
    let ct := cipher.encryptAndDigest ke.1 nonce data
    match writeEntry w.fs (path ++ ".enc") (nonce ++ ct.2 ++ ct.1) with
    | .error er => (ke.2, ⟨w.fs, rng1⟩, [.failed path er])
    | .ok fs2 =>
      match removeEntry fs2 path with
      | .error er => (ke.2, ⟨fs2, rng1⟩, [.failed path er])
      | .ok fs3 =>
        match renameEntry fs3 (path ++ ".enc") path with
        | .error er => (ke.2, ⟨fs3, rng1⟩, [.failed path er])
        | .ok fs4 => (ke.2, ⟨fs4, rng1⟩, [.encrypted path])

def decrypt_file (P : Prims) (e : CryptoEngine) (w : World) (path : FPath) :
    CryptoEngine × World × List LogEvent :=
  match readEntry w.fs path with
  | .error er => (e, w, [.failed path er])
  | .ok raw =>
    let parts := decodeContainer raw
    let ke := derive_key P e path
    let cipher := selectCipher P
    match cipher.decryptAndVerify ke.1 parts.1 parts.2.2 parts.2.1 with
    | none => (ke.2, w, [.failed path .authenticationFailed])
    | some data =>
      match writeEntry w.fs (path ++ ".dec") data with
      | .error er => (ke.2, w, [.failed path er])
      | .ok fs2 =>
        match removeEntry fs2 path with
        | .error er => (ke.2, ⟨fs2, w.rng⟩, [.failed path er])
        | .ok fs3 =>
          match renameEntry fs3 (path ++ ".dec") path with
          | .error er => (ke.2, ⟨fs3, w.rng⟩, [.failed path er])
          | .ok fs4 => (ke.2, ⟨fs4, w.rng⟩, [.decrypted path])

/-! ### SelectionPolicy (`should_encrypt`) -/

/-- `os.path.isfile`. -/
def isfile (fs : FS) (p : FPath) : Bool :=
  match fs p with
  | some (.file _ _) => true
  | _ => false

/-- Python's `str.startswith`, on code points. -/
def strStartsWith (path ex : String) : Bool := ex.data.isPrefixOf path.data

/-- Python's `str.endswith`, on code points. -/
def strEndsWith (path ex : String) : Bool := ex.data.isSuffixOf path.data

/-- `should_encrypt`. -/
def should_encrypt (fs : FS) (path : FPath) : Bool :=
  if CONFIG_exclude.any (fun ex => strStartsWith path ex) then false
  else if CONFIG_extensions.any (fun ex => strEndsWith path ex) then false
  else isfile fs path

/-! ### Walker (`process_filesystem`) and entry points -/

/-- The inner loop of `process_filesystem` over the joined paths `os.walk`
yields; the walk enumeration itself is an OS behaviour and is passed in. -/
def processFiles (P : Prims) (e : CryptoEngine) (w : World) :
    List FPath → CryptoEngine × World × List LogEvent
  | [] => (e, w, [])
  | p :: rest =>
    if should_encrypt w.fs p then
      let r1 := encrypt_file P e w p
      let r2 := processFiles P r1.1 r1.2.1 rest
      (r2.1, r2.2.1, r1.2.2 ++ r2.2.2)
    else processFiles P e w rest

/-- `process_filesystem root`: build a fresh `CryptoEngine` (which may raise
out of the function if the keystore is unreadable), then walk. -/
def process_filesystem (P : Prims) (walk : FPath → List FPath) (w : World)
    (root : FPath) : Except Err (World × List LogEvent) :=
  match newEngine P w with
  | .error er => .error er
  | .ok (crypto, w1) =>
    let r := processFiles P crypto w1 (walk root)
    .ok (r.2.1, r.2.2)

/-- `os.path.exists`. -/
def existsPath (fs : FS) (p : FPath) : Bool := (fs p).isSome

/-- The loop shared by `lock_system` and `unlock_system` over a root list. -/
def runRoots (P : Prims) (walk : FPath → List FPath) (w : World) :
    List FPath → Except Err (World × List LogEvent)
  | [] => .ok (w, [])
  | r :: rest =>
    if existsPath w.fs r then
      match process_filesystem P walk w r with
      | .error er => .error er
      | .ok (w', log1) =>
        match runRoots P walk w' rest with
        | .error er => .error er
        | .ok (w'', log2) => .ok (w'', log1 ++ log2)
    else runRoots P walk w rest

def lock_system (P : Prims) (walk : FPath → List FPath) (w : World) :
    Except Err (World × List LogEvent) :=
  runRoots P walk w ["/home", "/var", "/opt"]

def unlock_system (P : Prims) (walk : FPath → List FPath) (w : World) :
    Except Err (World × List LogEvent) :=
  runRoots P walk w ["/home", "/var", "/opt"]

/-- `if __name__ == '__main__'`: `--unlock` as first argument selects
`unlock_system`, anything else runs `lock_system`. -/
def mainEntry (P : Prims) (walk : FPath → List FPath) (w : World)
    (argv : List String) : Except Err (World × List LogEvent) :=
  match argv with
  | _ :: a1 :: _ =>
    if a1 = "--unlock" then unlock_system P walk w else lock_system P walk w
  | _ => lock_system P walk w

/-! ### Derived notions used by the statements -/

/-- The key-derivation cache is consistent: every cached value is what
recomputation would produce. -/
def CacheOk (P : Prims) (e : CryptoEngine) : Prop :=
  ∀ p k, cacheLookup e.key_cache p = some k →
    k = P.hmacSha256 e.master_key (P.sha256 (pathBytes p))

/-- The log of a run, empty if the run raised. -/
def getLog : Except Err (World × List LogEvent) → List LogEvent
  | .ok (_, l) => l
  | .error _ => []

/-- `true` on every log line except the `Decrypted` success line. -/
def notDecryptedEvent : LogEvent → Bool
  | .decrypted _ => false
  | _ => true

/-- The walker with the per-file transform abstracted out, following the
specification's description of the walk-and-transform path; comparing
`processFiles` against its instantiations shows which transform the source
wires in. -/
def processFilesWith
    (step : CryptoEngine → World → FPath → CryptoEngine × World × List LogEvent)
    (e : CryptoEngine) (w : World) :
    List FPath → CryptoEngine × World × List LogEvent
  | [] => (e, w, [])
  | p :: rest =>
    if should_encrypt w.fs p then
      let r1 := step e w p
      let r2 := processFilesWith step r1.1 r1.2.1 rest
      (r2.1, r2.2.1, r1.2.2 ++ r2.2.2)
    else processFilesWith step e w rest

/-! ### Concrete instantiations of the abstract primitives, used by the
witnesses: a toy AEAD (reversal cipher with a 16-byte checksum tag), toy
hashes and a constant random generator. -/

def toyTag (k n c : Bytes) : Bytes :=
  (List.range 16).map (fun i => (k.sum + n.sum + c.sum + i) % 256)

def toyAEAD : AEAD where
  encryptAndDigest := fun k n m => (m.reverse, toyTag k n m.reverse)
  decryptAndVerify := fun k n c t => if t = toyTag k n c then some c.reverse else none

def toyPrims : Prims where
  gcm := toyAEAD
  chacha := toyAEAD
  sha256 := fun b => b
  hmacSha256 := fun k m => k ++ m
  rand := fun i k => List.replicate k (i % 256)

/-- The AEAD output `(ciphertext, tag)` produced inside `encrypt_file`. -/
def encOut (P : Prims) (e : CryptoEngine) (w : World) (path : FPath)
    (m : Bytes) : Bytes × Bytes :=
  (selectCipher P).encryptAndDigest (derive_key P e path).1 (P.rand w.rng 12) m

/-- The container `encrypt_file` writes: `nonce || tag || ciphertext`. -/
def containerOf (P : Prims) (e : CryptoEngine) (w : World) (path : FPath)
    (m : Bytes) : Bytes :=
  P.rand w.rng 12 ++ (encOut P e w path m).2 ++ (encOut P e w path m).1

/-- The filesystem after a successful write-temp / remove / rename cycle. -/
def replacedFS (fs : FS) (path tmp : FPath) (d : Bytes) (mq : Nat) : FS :=
  fun x => if x = path then some (.file d mq) else if x = tmp then none else fs x

/-! ### Concrete worlds for the witnesses -/

def sampleFS : FS := fun p =>
  if p = "/home" then some Entry.dir
  else if p = "/home/a.txt" then some (Entry.file [10, 20] 420)
  else none

def sampleWorld : World := ⟨sampleFS, 0⟩

def badTagRaw : Bytes := List.replicate 12 0 ++ List.replicate 16 0 ++ [20, 10]

def badTagFS : FS := fun p => if p = "/v/f" then some (Entry.file badTagRaw 420) else none

def badTagWorld : World := ⟨badTagFS, 0⟩

def shortContainerFS : FS := fun p =>
  if p = "/f" then some (Entry.file (List.replicate 20 3) 420) else none

def shortContainerWorld : World := ⟨shortContainerFS, 0⟩

def emptyFileFS : FS := fun p =>
  if p = "/home/e.bin" then some (Entry.file [] 420) else none

def emptyFileWorld : World := ⟨emptyFileFS, 0⟩

def emptyWorld : World := ⟨fun _ => none, 0⟩

def dirCollisionFS : FS := fun p =>
  if p = "/v/a" then some (Entry.file [1] 420)
  else if p = "/v/a" ++ ".enc" then some Entry.dir
  else if p = "/v/b" then some (Entry.file [2] 420)
  else none

def dirCollisionWorld : World := ⟨dirCollisionFS, 0⟩

def shortKeyFS : FS := fun p =>
  if p = CONFIG_keystore then some (Entry.file [7, 8, 9] 384) else none

def shortKeyWorld : World := ⟨shortKeyFS, 0⟩

/-! ### Theorems -/

theorem toyAEAD_roundTrip : toyAEAD.RoundTrip := by
  intro k n m
  simp [AEAD.RoundTrip, toyAEAD]

theorem toyAEAD_tagLen16 : toyAEAD.TagLen16 := by
  intro k n m
  simp [AEAD.TagLen16, toyAEAD, toyTag]

theorem toyAEAD_ctLenEq : toyAEAD.CtLenEq := by
  intro k n m
  simp [AEAD.CtLenEq, toyAEAD]

theorem toyAEAD_authStrict : toyAEAD.AuthStrict := by
  intro k n c t t' h h'
  simp only [toyAEAD] at h h'
  by_cases ht : t = toyTag k n c
  · by_cases ht' : t' = toyTag k n c
    · rw [ht, ht']
    · simp [ht'] at h'
  · simp [ht] at h

theorem toyAEAD_validTagLen : toyAEAD.ValidTagLen := by
  intro k n c t h
  simp only [toyAEAD] at h
  by_cases ht : t = toyTag k n c
  · simp [ht, toyTag]
  · simp [ht] at h

theorem toy_selectCipher : selectCipher toyPrims = toyAEAD := rfl

theorem str_append_ne (p : String) {s : String} (h : s.length ≠ 0) : p ++ s ≠ p := by
  intro he
  have hl := congrArg String.length he
  rw [String.length_append] at hl
  omega

theorem str_append_right_ne (p : String) {s t : String} (h : s ≠ t) :
    p ++ s ≠ p ++ t := by
  intro he
  apply h
  have hd := congrArg String.data he
  rw [String.data_append, String.data_append] at hd
  exact String.ext (List.append_cancel_left hd)

theorem decodeContainer_concat (n t c : Bytes) (hn : n.length = 12)
    (ht : t.length = 16) : decodeContainer (n ++ t ++ c) = (n, t, c) := by
  unfold decodeContainer
  rw [List.append_assoc, List.take_left' hn, List.drop_left' hn,
    List.take_left' ht, List.drop_left' ht]

theorem derive_key_master (P : Prims) (e : CryptoEngine) (p : FPath) :
    (derive_key P e p).2.master_key = e.master_key := by
  unfold derive_key
  cases cacheLookup e.key_cache p <;> simp

theorem derive_key_again (P : Prims) (e : CryptoEngine) (p : FPath) :
    derive_key P (derive_key P e p).2 p
      = ((derive_key P e p).1, (derive_key P e p).2) := by
  unfold derive_key
  cases h : cacheLookup e.key_cache p <;> simp [h, cacheLookup]

theorem encrypt_file_ok (P : Prims) (e : CryptoEngine) (w : World)
    (path : FPath) (m : Bytes) (md : Nat)
    (hf : w.fs path = some (.file m md))
    (henc : w.fs (path ++ ".enc") ≠ some Entry.dir) :
    ∃ mq, encrypt_file P e w path =
      ((derive_key P e path).2,
        ⟨replacedFS w.fs path (path ++ ".enc") (containerOf P e w path m) mq,
          w.rng + 1⟩,
        [.encrypted path]) := by
  have hqp : path ++ ".enc" ≠ path := str_append_ne path (by decide)
  have hpq : ¬ (path = path ++ ".enc") := fun h => hqp h.symm
  have hread : readEntry w.fs path = .ok m := by simp [readEntry, hf]
  unfold encrypt_file
  rw [hread]
  rcases hw : w.fs (path ++ ".enc") with _ | e2
  · refine ⟨0o644, ?_⟩
    simp only [writeEntry, hw, removeEntry, renameEntry, if_neg hpq, if_neg hqp,
      if_pos rfl, hf, ite_false, ite_true]
    simp only [Prod.mk.injEq, World.mk.injEq]
    refine ⟨trivial, ⟨?_, trivial⟩, trivial⟩
    funext x
    unfold replacedFS containerOf encOut
    by_cases hx1 : x = path
    · simp [hx1, if_neg hpq]
    · by_cases hx2 : x = path ++ ".enc"
      · simp [hx1, hx2, if_neg hqp]
      · simp [hx1, hx2]
  · cases e2 with
    | file d2 md2 =>
      refine ⟨md2, ?_⟩
      simp only [writeEntry, hw, removeEntry, renameEntry, if_neg hpq, if_neg hqp,
        if_pos rfl, hf, ite_false, ite_true]
      simp only [Prod.mk.injEq, World.mk.injEq]
      refine ⟨trivial, ⟨?_, trivial⟩, trivial⟩
      funext x
      unfold replacedFS containerOf encOut
      by_cases hx1 : x = path
      · simp [hx1, if_neg hpq]
      · by_cases hx2 : x = path ++ ".enc"
        · simp [hx1, hx2, if_neg hqp]
        · simp [hx1, hx2]
    | dir => exact absurd hw henc



theorem decrypt_file_verifyFail (P : Prims) (e : CryptoEngine) (w : World)
    (path : FPath) (raw : Bytes) (md : Nat)
    (hf : w.fs path = some (Entry.file raw md))
    (hv : (selectCipher P).decryptAndVerify (derive_key P e path).1
        (decodeContainer raw).1 (decodeContainer raw).2.2
        (decodeContainer raw).2.1 = none) :
    decrypt_file P e w path
      = ((derive_key P e path).2, w, [.failed path .authenticationFailed]) := by
  have hread : readEntry w.fs path = .ok raw := by simp [readEntry, hf]
  unfold decrypt_file
  rw [hread]
  simp only [hv]

theorem decrypt_file_ok (P : Prims) (e : CryptoEngine) (w : World)
    (path : FPath) (raw : Bytes) (md : Nat) (data : Bytes)
    (hf : w.fs path = some (Entry.file raw md))
    (hv : (selectCipher P).decryptAndVerify (derive_key P e path).1
        (decodeContainer raw).1 (decodeContainer raw).2.2
        (decodeContainer raw).2.1 = some data)
    (hdec : w.fs (path ++ ".dec") ≠ some Entry.dir) :
    ∃ mq, decrypt_file P e w path =
      ((derive_key P e path).2,
        ⟨replacedFS w.fs path (path ++ ".dec") data mq, w.rng⟩,
        [.decrypted path]) := by
  have hqp : path ++ ".dec" ≠ path := str_append_ne path (by decide)
  have hpq : ¬ (path = path ++ ".dec") := fun h => hqp h.symm
  have hread : readEntry w.fs path = .ok raw := by simp [readEntry, hf]
  unfold decrypt_file
  rw [hread]
  simp only [hv]
  rcases hw : w.fs (path ++ ".dec") with _ | e2
  · refine ⟨0o644, ?_⟩
    simp only [writeEntry, hw, removeEntry, renameEntry, if_neg hpq, if_neg hqp,
      if_pos rfl, hf, ite_false, ite_true]
    simp only [Prod.mk.injEq, World.mk.injEq]
    refine ⟨trivial, ⟨?_, trivial⟩, trivial⟩
    funext x
    unfold replacedFS
    by_cases hx1 : x = path
    · simp [hx1, if_neg hpq]
    · by_cases hx2 : x = path ++ ".dec"
      · simp [hx1, hx2, if_neg hqp]
      · simp [hx1, hx2]
  · cases e2 with
    | file d2 md2 =>
      refine ⟨md2, ?_⟩
      simp only [writeEntry, hw, removeEntry, renameEntry, if_neg hpq, if_neg hqp,
        if_pos rfl, hf, ite_false, ite_true]
      simp only [Prod.mk.injEq, World.mk.injEq]
      refine ⟨trivial, ⟨?_, trivial⟩, trivial⟩
      funext x
      unfold replacedFS
      by_cases hx1 : x = path
      · simp [hx1, if_neg hpq]
      · by_cases hx2 : x = path ++ ".dec"
        · simp [hx1, hx2, if_neg hqp]
        · simp [hx1, hx2]
    | dir => exact absurd hw hdec

theorem encrypt_file_log_shape (P : Prims) (e : CryptoEngine) (w : World)
    (p : FPath) : (encrypt_file P e w p).2.2 = [.encrypted p] ∨
      ∃ er, (encrypt_file P e w p).2.2 = [.failed p er] := by
  unfold encrypt_file
  dsimp only
  repeat' split
  all_goals first | exact .inl rfl | exact .inr ⟨_, rfl⟩

theorem decrypt_file_log_shape (P : Prims) (e : CryptoEngine) (w : World)
    (p : FPath) : (decrypt_file P e w p).2.2 = [.decrypted p] ∨
      ∃ er, (decrypt_file P e w p).2.2 = [.failed p er] := by
  unfold decrypt_file
  dsimp only
  repeat' split
  all_goals first | exact .inl rfl | exact .inr ⟨_, rfl⟩

theorem processFiles_log_notDecrypted (P : Prims) :
    ∀ (ps : List FPath) (e : CryptoEngine) (w : World),
      (processFiles P e w ps).2.2.all notDecryptedEvent = true
  | [], _, _ => rfl
  | p :: rest, e, w => by
    unfold processFiles
    by_cases h : should_encrypt w.fs p
    · simp only [h, if_true, List.all_append, Bool.and_eq_true]
      refine ⟨?_, processFiles_log_notDecrypted P rest _ _⟩
      rcases encrypt_file_log_shape P e w p with h1 | ⟨er, h1⟩ <;>
        simp [h1, notDecryptedEvent]
    · simp only [h, if_false]
      exact processFiles_log_notDecrypted P rest e w

theorem process_filesystem_log_notDecrypted (P : Prims)
    (walk : FPath → List FPath) (w : World) (r : FPath) (w' : World)
    (log : List LogEvent) (h : process_filesystem P walk w r = .ok (w', log)) :
    log.all notDecryptedEvent = true := by
  unfold process_filesystem at h
  cases hne : newEngine P w with
  | error er => rw [hne] at h; exact absurd h (by simp)
  | ok cw =>
    rw [hne] at h
    simp only [Except.ok.injEq, Prod.mk.injEq] at h
    rw [← h.2]
    exact processFiles_log_notDecrypted P _ _ _

theorem runRoots_log_notDecrypted (P : Prims) (walk : FPath → List FPath) :
    ∀ (roots : List FPath) (w : World),
      (getLog (runRoots P walk w roots)).all notDecryptedEvent = true
  | [], _ => rfl
  | r :: rest, w => by
    unfold runRoots
    by_cases hex : existsPath w.fs r
    · simp only [hex, if_true]
      cases hpf : process_filesystem P walk w r with
      | error er => rfl
      | ok pr =>
        obtain ⟨w1, log1⟩ := pr
        dsimp only
        cases hrr : runRoots P walk w1 rest with
        | error er => rfl
        | ok pr2 =>
          obtain ⟨w2, log2⟩ := pr2
          simp only [getLog, List.all_append, Bool.and_eq_true]
          refine ⟨process_filesystem_log_notDecrypted P walk w r w1 log1 hpf, ?_⟩
          have hh := runRoots_log_notDecrypted P walk rest w1
          rw [hrr] at hh
          exact hh
    · simp only [hex, if_false]
      exact runRoots_log_notDecrypted P walk rest w

/-- Claim C1: for every plaintext `m` and every key (any master key and
cache state in the engine), decrypting the container produced by encrypting
`m` yields exactly `m`: the AEAD round-trip law for the `encrypt_file` /
`decrypt_file` pair. -/
theorem C1_round_trip (P : Prims) (e : CryptoEngine) (w : World)
    (path : FPath) (m : Bytes) (md : Nat)
    (hrt : (selectCipher P).RoundTrip) (htag : (selectCipher P).TagLen16)
    (hn : (P.rand w.rng 12).length = 12)
    (hf : w.fs path = some (Entry.file m md))
    (henc : w.fs (path ++ ".enc") ≠ some Entry.dir)
    (hdec : w.fs (path ++ ".dec") ≠ some Entry.dir) :
    ∃ mq,
      (decrypt_file P (encrypt_file P e w path).1
          (encrypt_file P e w path).2.1 path).2.1.fs path
        = some (Entry.file m mq) ∧
      (decrypt_file P (encrypt_file P e w path).1
          (encrypt_file P e w path).2.1 path).2.2 = [.decrypted path] := by
  obtain ⟨mq, h1⟩ := encrypt_file_ok P e w path m md hf henc
  rw [h1]
  have hfs1 : (replacedFS w.fs path (path ++ ".enc") (containerOf P e w path m) mq) path
      = some (Entry.file (containerOf P e w path m) mq) := by
    simp [replacedFS]
  have hdecode : decodeContainer (containerOf P e w path m)
      = (P.rand w.rng 12, (encOut P e w path m).2, (encOut P e w path m).1) := by
    unfold containerOf
    exact decodeContainer_concat _ _ _ hn (htag _ _ _)
  have hderive : derive_key P (derive_key P e path).2 path
      = ((derive_key P e path).1, (derive_key P e path).2) := derive_key_again P e path
  have hv : (selectCipher P).decryptAndVerify
      (derive_key P (derive_key P e path).2 path).1
      (decodeContainer (containerOf P e w path m)).1
      (decodeContainer (containerOf P e w path m)).2.2
      (decodeContainer (containerOf P e w path m)).2.1 = some m := by
    rw [hdecode, hderive]
    exact hrt _ _ _
  have hdec1 : (replacedFS w.fs path (path ++ ".enc") (containerOf P e w path m) mq)
      (path ++ ".dec") ≠ some Entry.dir := by
    unfold replacedFS
    rw [if_neg (str_append_ne path (by decide)),
      if_neg (str_append_right_ne path (by decide))]
    exact hdec
  obtain ⟨mq2, h2⟩ := decrypt_file_ok P (derive_key P e path).2
    ⟨replacedFS w.fs path (path ++ ".enc") (containerOf P e w path m) mq, w.rng + 1⟩
    path (containerOf P e w path m) mq m hfs1 hv hdec1
  rw [h2]
  exact ⟨mq2, by simp [replacedFS], rfl⟩

/-- Claim C2: `lock_system` and `unlock_system` are extensionally equal, the
command-line flag routes to the same behaviour, the walk always applies
`encrypt_file` to each eligible path, and no run of either entry point ever
produces the `Decrypted` event — `decrypt_file`'s effect is never reached. -/
theorem C2_lock_unlock_equivalent :
    (∀ (P : Prims) (walk : FPath → List FPath) (w : World),
      lock_system P walk w = unlock_system P walk w) ∧
    (∀ (P : Prims) (walk : FPath → List FPath) (w : World) (argv : List String),
      mainEntry P walk w argv = lock_system P walk w) ∧
    (∀ (P : Prims) (e : CryptoEngine) (w : World) (ps : List FPath),
      processFiles P e w ps = processFilesWith (encrypt_file P) e w ps) ∧
    (∀ (P : Prims) (walk : FPath → List FPath) (w : World),
      (getLog (lock_system P walk w)).all notDecryptedEvent = true) ∧
    (∀ (P : Prims) (walk : FPath → List FPath) (w : World),
      (getLog (unlock_system P walk w)).all notDecryptedEvent = true) := by
  refine ⟨fun P walk w => rfl, ?_, ?_, ?_, ?_⟩
  · intro P walk w argv
    match argv with
    | [] => rfl
    | [a] => rfl
    | a :: a1 :: rest =>
      by_cases h : a1 = "--unlock"
      · simp only [mainEntry, h, if_pos]
        rfl
      · simp [mainEntry, h]
  · intro P e w ps
    induction ps generalizing e w with
    | nil => rfl
    | cons p rest ih =>
      unfold processFiles processFilesWith
      by_cases h : should_encrypt w.fs p <;> simp [h, ih]
  · intro P walk w
    exact runRoots_log_notDecrypted P walk _ w
  · intro P walk w
    exact runRoots_log_notDecrypted P walk _ w

/-- Claim C3: with a consistent cache, `_derive_key` returns
`HMAC-SHA256(master, SHA256(path bytes))`; it keeps the cache consistent,
stores the result under the path, and a second call with the same path
returns the identical cached bytes without changing the engine — so the
cache does not change the result. -/
theorem C3_derive_key_pure_cached (P : Prims) (e : CryptoEngine) (p : FPath)
    (hok : CacheOk P e) :
    (derive_key P e p).1 = P.hmacSha256 e.master_key (P.sha256 (pathBytes p)) ∧
    CacheOk P (derive_key P e p).2 ∧
    cacheLookup (derive_key P e p).2.key_cache p = some (derive_key P e p).1 ∧
    derive_key P (derive_key P e p).2 p
      = ((derive_key P e p).1, (derive_key P e p).2) := by
  refine ⟨?_, ?_, ?_, derive_key_again P e p⟩
  · unfold derive_key
    cases h : cacheLookup e.key_cache p with
    | some k => simpa using hok p k h
    | none => simp
  · unfold derive_key
    cases h : cacheLookup e.key_cache p with
    | some k => simpa using hok
    | none =>
      intro q kq hq
      simp only [cacheLookup] at hq
      by_cases hqp : q = p
      · rw [if_pos hqp] at hq
        cases hq
        rw [hqp]
      · rw [if_neg hqp] at hq
        exact hok q kq hq
  · unfold derive_key
    cases h : cacheLookup e.key_cache p with
    | some k => simpa using h
    | none => simp [cacheLookup]

/-- Claim C4: whenever AEAD verification of the container's tag fails — in
particular for any well-formed container whose 16-byte tag is replaced by a
different one, e.g. with a bit flipped — `decrypt_file` reports
`AuthenticationFailed` and leaves the whole world (filesystem and all)
exactly as it was: no temp write, no remove, no rename. -/
theorem C4_auth_failure_preserves_file :
    (∀ (P : Prims) (e : CryptoEngine) (w : World) (path : FPath)
        (raw : Bytes) (md : Nat),
      w.fs path = some (Entry.file raw md) →
      (selectCipher P).decryptAndVerify (derive_key P e path).1
        (decodeContainer raw).1 (decodeContainer raw).2.2
        (decodeContainer raw).2.1 = none →
      decrypt_file P e w path
        = ((derive_key P e path).2, w, [.failed path .authenticationFailed])) ∧
    (∀ (P : Prims) (e : CryptoEngine) (path : FPath) (n m t' : Bytes),
      (selectCipher P).RoundTrip → (selectCipher P).AuthStrict →
      n.length = 12 → t'.length = 16 →
      t' ≠ ((selectCipher P).encryptAndDigest (derive_key P e path).1 n m).2 →
      (selectCipher P).decryptAndVerify (derive_key P e path).1
        (decodeContainer (n ++ t' ++
          ((selectCipher P).encryptAndDigest (derive_key P e path).1 n m).1)).1
        (decodeContainer (n ++ t' ++
          ((selectCipher P).encryptAndDigest (derive_key P e path).1 n m).1)).2.2
        (decodeContainer (n ++ t' ++
          ((selectCipher P).encryptAndDigest (derive_key P e path).1 n m).1)).2.1
        = none) := by
  constructor
  · intro P e w path raw md hf hv
    exact decrypt_file_verifyFail P e w path raw md hf hv
  · intro P e path n m t' hrt hauth hn ht' hne
    rw [decodeContainer_concat _ _ _ hn ht']
    cases hv : (selectCipher P).decryptAndVerify (derive_key P e path).1 n
      ((selectCipher P).encryptAndDigest (derive_key P e path).1 n m).1 t' with
    | none => rfl
    | some d =>
      exfalso
      apply hne
      apply hauth (derive_key P e path).1 n
        ((selectCipher P).encryptAndDigest (derive_key P e path).1 n m).1 t'
        ((selectCipher P).encryptAndDigest (derive_key P e path).1 n m).2
      · rw [hv]; rfl
      · rw [hrt (derive_key P e path).1 n m]; rfl

/-- Claim C5 (amended): decoding splits the container by sequential reads —
first 12 bytes as nonce, next 16 as tag, remainder as ciphertext, exactly so
for any input of length at least 28 — but there is no length check: an input
shorter than 28 bytes is not rejected with `MalformedContainer`; decryption
is attempted and fails during AEAD tag verification (the tag cannot be 16
bytes), surfacing as `AuthenticationFailed`. -/
theorem C5_decode_no_length_check :
    (∀ n t c : Bytes, n.length = 12 → t.length = 16 →
      decodeContainer (n ++ t ++ c) = (n, t, c)) ∧
    (∀ (P : Prims) (e : CryptoEngine) (w : World) (path : FPath)
        (raw : Bytes) (md : Nat),
      (selectCipher P).ValidTagLen →
      w.fs path = some (Entry.file raw md) →
      raw.length < 28 →
      decrypt_file P e w path
        = ((derive_key P e path).2, w, [.failed path .authenticationFailed])) := by
  refine ⟨decodeContainer_concat, ?_⟩
  intro P e w path raw md hvt hf hlen
  apply decrypt_file_verifyFail P e w path raw md hf
  cases hv : (selectCipher P).decryptAndVerify (derive_key P e path).1
    (decodeContainer raw).1 (decodeContainer raw).2.2
    (decodeContainer raw).2.1 with
  | none => rfl
  | some d =>
    exfalso
    have h16 : (decodeContainer raw).2.1.length = 16 := by
      apply hvt
      rw [hv]
      rfl
    have : (decodeContainer raw).2.1.length = min 16 (raw.length - 12) := by
      simp [decodeContainer]
    omega

/-- Claim C6: the container `encrypt_file` leaves at the original path is
`nonce(12) || tag(16) || ciphertext`, and its length is
`12 + 16 + len(plaintext)`. -/
theorem C6_container_layout (P : Prims) (e : CryptoEngine) (w : World)
    (path : FPath) (m : Bytes) (md : Nat)
    (htag : (selectCipher P).TagLen16) (hct : (selectCipher P).CtLenEq)
    (hn : (P.rand w.rng 12).length = 12)
    (hf : w.fs path = some (Entry.file m md))
    (henc : w.fs (path ++ ".enc") ≠ some Entry.dir) :
    ∃ mq, (encrypt_file P e w path).2.1.fs path
        = some (Entry.file (containerOf P e w path m) mq) ∧
      containerOf P e w path m
        = P.rand w.rng 12 ++ (encOut P e w path m).2 ++ (encOut P e w path m).1 ∧
      (containerOf P e w path m).length = 12 + 16 + m.length := by
  obtain ⟨mq, h1⟩ := encrypt_file_ok P e w path m md hf henc
  refine ⟨mq, ?_, rfl, ?_⟩
  · rw [h1]
    simp [replacedFS]
  · unfold containerOf encOut
    rw [List.length_append, List.length_append, hn, htag, hct]

/-- Claim C7: `should_encrypt` is false for any path under a configured
excluded prefix, false for any path with a configured excluded suffix,
false for anything that is not a regular file (directories included), and
true otherwise. -/
theorem C7_should_encrypt_policy :
    (∀ (fs : FS) (path ex : String), ex ∈ CONFIG_exclude →
      strStartsWith path ex = true → should_encrypt fs path = false) ∧
    (∀ (fs : FS) (path ex : String), ex ∈ CONFIG_extensions →
      strEndsWith path ex = true → should_encrypt fs path = false) ∧
    (∀ (fs : FS) (path : String), isfile fs path = false →
      should_encrypt fs path = false) ∧
    (∀ (fs : FS) (path : String),
      (∀ ex ∈ CONFIG_exclude, strStartsWith path ex = false) →
      (∀ ex ∈ CONFIG_extensions, strEndsWith path ex = false) →
      isfile fs path = true → should_encrypt fs path = true) := by
  refine ⟨?_, ?_, ?_, ?_⟩
  · intro fs path ex hmem h
    have hany : CONFIG_exclude.any (fun x => strStartsWith path x) = true :=
      List.any_eq_true.mpr ⟨ex, hmem, h⟩
    simp [should_encrypt, hany]
  · intro fs path ex hmem h
    have hany : CONFIG_extensions.any (fun x => strEndsWith path x) = true :=
      List.any_eq_true.mpr ⟨ex, hmem, h⟩
    unfold should_encrypt
    by_cases h1 : CONFIG_exclude.any (fun x => strStartsWith path x) = true
    · simp [h1]
    · simp [h1, hany]
  · intro fs path hfile
    unfold should_encrypt
    by_cases h1 : CONFIG_exclude.any (fun x => strStartsWith path x) = true
    · simp [h1]
    · by_cases h2 : CONFIG_extensions.any (fun x => strEndsWith path x) = true
      · simp [h1, h2]
      · simp [h1, h2, hfile]
  · intro fs path hpre hsuf hfile
    have h1 : CONFIG_exclude.any (fun x => strStartsWith path x) = false := by
      rw [List.any_eq_false]
      intro ex hmem
      simp [hpre ex hmem]
    have h2 : CONFIG_extensions.any (fun x => strEndsWith path x) = false := by
      rw [List.any_eq_false]
      intro ex hmem
      simp [hsuf ex hmem]
    simp [should_encrypt, h1, h2, hfile]

/-- Claim C8: `_init_keystore` reads the first 32 bytes of an existing
keystore file; when the keystore is absent it writes the 32 fresh random
bytes there, sets its mode to `0o600`, touches nothing else, and any
subsequent call (e.g. another process over the same filesystem) reads back
exactly the persisted 32 bytes. -/
theorem C8_keystore_load_or_create (P : Prims) (w : World) :
    (∀ (data : Bytes) (md : Nat),
      w.fs CONFIG_keystore = some (Entry.file data md) →
      init_keystore P w = .ok (data.take 32, w) ∧
      (32 ≤ data.length → (data.take 32).length = 32)) ∧
    (w.fs CONFIG_keystore = none → (P.rand w.rng 32).length = 32 →
      ∃ w' : World,
        init_keystore P w = .ok (P.rand w.rng 32, w') ∧
        w'.fs CONFIG_keystore = some (Entry.file (P.rand w.rng 32) 0o600) ∧
        (∀ q, q ≠ CONFIG_keystore → w'.fs q = w.fs q) ∧
        (∀ r, init_keystore P ⟨w'.fs, r⟩
          = .ok (P.rand w.rng 32, ⟨w'.fs, r⟩))) := by
  constructor
  · intro data md hf
    refine ⟨by simp [init_keystore, hf], ?_⟩
    intro hlen
    rw [List.length_take]
    omega
  · intro habs hlen
    refine ⟨⟨fun q => if q = CONFIG_keystore
        then some (Entry.file (P.rand w.rng 32) 0o600)
        else if q = CONFIG_keystore then some (Entry.file (P.rand w.rng 32) 0o644)
        else w.fs q, w.rng + 1⟩, ?_, ?_, ?_, ?_⟩
    · simp [init_keystore, habs]
    · simp
    · intro q hq
      simp [if_neg hq]
    · intro r
      simp [init_keystore, List.take_of_length_le (le_of_eq hlen)]

/-- Claim C9: each file transform catches every error at its boundary and
yields exactly one log line naming the path (success or `Failed` with the
error detail), and a file whose transform fails does not abort the walk —
the remaining files are processed exactly as they would have been. -/
theorem C9_per_file_errors_contained :
    (∀ (P : Prims) (e : CryptoEngine) (w : World) (p : FPath),
      (encrypt_file P e w p).2.2 = [.encrypted p] ∨
        ∃ er, (encrypt_file P e w p).2.2 = [.failed p er]) ∧
    (∀ (P : Prims) (e : CryptoEngine) (w : World) (p : FPath),
      (decrypt_file P e w p).2.2 = [.decrypted p] ∨
        ∃ er, (decrypt_file P e w p).2.2 = [.failed p er]) ∧
    (∀ (P : Prims) (e : CryptoEngine) (w : World) (p : FPath) (ps : List FPath)
        (e1 : CryptoEngine) (w1 : World) (er : Err),
      should_encrypt w.fs p = true →
      encrypt_file P e w p = (e1, w1, [.failed p er]) →
      processFiles P e w (p :: ps)
        = ((processFiles P e1 w1 ps).1, (processFiles P e1 w1 ps).2.1,
            .failed p er :: (processFiles P e1 w1 ps).2.2)) := by
  refine ⟨encrypt_file_log_shape, decrypt_file_log_shape, ?_⟩
  intro P e w p ps e1 w1 er hse henc
  conv_lhs => rw [processFiles]
  simp [hse, henc]

/-- Claim C10 (implicit): when the keystore file exists, `_init_keystore`
returns its first `min(32, size)` bytes with no length validation — for a
keystore shorter than 32 bytes the engine proceeds, without error, with a
master key of that shorter length. -/
theorem C10_short_keystore_accepted (P : Prims) (w : World) (data : Bytes)
    (md : Nat) (hf : w.fs CONFIG_keystore = some (Entry.file data md))
    (hshort : data.length < 32) :
    init_keystore P w = .ok (data, w) ∧
    newEngine P w = .ok (⟨data, []⟩, w) := by
  have htake : data.take 32 = data := List.take_of_length_le (by omega)
  constructor
  · simp [init_keystore, hf, htake]
  · simp [newEngine, init_keystore, hf, htake]

/-- Witness for C1 at a concrete file and toy primitives. -/
theorem C1_round_trip_witness :
    ∃ mq,
      (decrypt_file toyPrims
          (encrypt_file toyPrims ⟨[9], []⟩ sampleWorld "/home/a.txt").1
          (encrypt_file toyPrims ⟨[9], []⟩ sampleWorld "/home/a.txt").2.1
          "/home/a.txt").2.1.fs "/home/a.txt"
        = some (Entry.file [10, 20] mq) ∧
      (decrypt_file toyPrims
          (encrypt_file toyPrims ⟨[9], []⟩ sampleWorld "/home/a.txt").1
          (encrypt_file toyPrims ⟨[9], []⟩ sampleWorld "/home/a.txt").2.1
          "/home/a.txt").2.2 = [.decrypted "/home/a.txt"] :=
  C1_round_trip toyPrims ⟨[9], []⟩ sampleWorld "/home/a.txt" [10, 20] 420
    (by rw [toy_selectCipher]; exact toyAEAD_roundTrip)
    (by rw [toy_selectCipher]; exact toyAEAD_tagLen16)
    (by decide) (by decide) (by decide) (by decide)

/-- Witness for C3 on an empty cache. -/
theorem C3_derive_key_pure_cached_witness :
    (derive_key toyPrims ⟨[1, 2], []⟩ "/a").1
        = toyPrims.hmacSha256 [1, 2] (toyPrims.sha256 (pathBytes "/a")) ∧
    CacheOk toyPrims (derive_key toyPrims ⟨[1, 2], []⟩ "/a").2 ∧
    cacheLookup (derive_key toyPrims ⟨[1, 2], []⟩ "/a").2.key_cache "/a"
        = some (derive_key toyPrims ⟨[1, 2], []⟩ "/a").1 ∧
    derive_key toyPrims (derive_key toyPrims ⟨[1, 2], []⟩ "/a").2 "/a"
        = ((derive_key toyPrims ⟨[1, 2], []⟩ "/a").1,
            (derive_key toyPrims ⟨[1, 2], []⟩ "/a").2) :=
  C3_derive_key_pure_cached toyPrims ⟨[1, 2], []⟩ "/a"
    (fun p k h => by simp [cacheLookup] at h)

/-- Witness for C4: a well-formed container with a zeroed-out tag. -/
theorem C4_auth_failure_preserves_file_witness :
    decrypt_file toyPrims ⟨[9], []⟩ badTagWorld "/v/f"
      = ((derive_key toyPrims ⟨[9], []⟩ "/v/f").2, badTagWorld,
          [.failed "/v/f" .authenticationFailed]) :=
  C4_auth_failure_preserves_file.1 toyPrims ⟨[9], []⟩ badTagWorld "/v/f"
    badTagRaw 420 (by decide) (by decide)

/-- Witness for C5's amended statement: the exact split on a well-formed
container, and a 20-byte container failing as `AuthenticationFailed`. -/
theorem C5_decode_no_length_check_witness :
    decodeContainer (List.replicate 12 1 ++ List.replicate 16 2 ++ [7])
        = (List.replicate 12 1, List.replicate 16 2, [7]) ∧
    decrypt_file toyPrims ⟨[5], []⟩ shortContainerWorld "/f"
      = ((derive_key toyPrims ⟨[5], []⟩ "/f").2, shortContainerWorld,
          [.failed "/f" .authenticationFailed]) :=
  ⟨C5_decode_no_length_check.1 _ _ _ (by decide) (by decide),
    C5_decode_no_length_check.2 toyPrims ⟨[5], []⟩ shortContainerWorld "/f"
      (List.replicate 20 3) 420
      (by rw [toy_selectCipher]; exact toyAEAD_validTagLen)
      (by decide) (by decide)⟩

/-- Counterexample to C5 as stated: this 20-byte container (length < 28) is
not rejected with `MalformedContainer`; decryption is attempted and the
failure surfaces as `AuthenticationFailed`. -/
theorem C5_short_container_counterexample :
    (List.replicate 20 3).length < 28 ∧
    (decrypt_file toyPrims ⟨[5], []⟩ shortContainerWorld "/f").2.2
        = [.failed "/f" .authenticationFailed] ∧
    (decrypt_file toyPrims ⟨[5], []⟩ shortContainerWorld "/f").2.2
        ≠ [.failed "/f" .malformedContainer] := by
  decide

/-- Witness for C6 on a 0-byte file: the container is exactly 28 bytes and
decrypting it returns 0 bytes. -/
theorem C6_container_layout_witness :
    (∃ mq, (encrypt_file toyPrims ⟨[9], []⟩ emptyFileWorld "/home/e.bin").2.1.fs
          "/home/e.bin"
        = some (Entry.file
            (containerOf toyPrims ⟨[9], []⟩ emptyFileWorld "/home/e.bin" []) mq) ∧
      containerOf toyPrims ⟨[9], []⟩ emptyFileWorld "/home/e.bin" []
        = toyPrims.rand 0 12
            ++ (encOut toyPrims ⟨[9], []⟩ emptyFileWorld "/home/e.bin" []).2
            ++ (encOut toyPrims ⟨[9], []⟩ emptyFileWorld "/home/e.bin" []).1 ∧
      (containerOf toyPrims ⟨[9], []⟩ emptyFileWorld "/home/e.bin" []).length
        = 12 + 16 + ([] : Bytes).length) ∧
    (containerOf toyPrims ⟨[9], []⟩ emptyFileWorld "/home/e.bin" []).length = 28 ∧
    (decrypt_file toyPrims
        (encrypt_file toyPrims ⟨[9], []⟩ emptyFileWorld "/home/e.bin").1
        (encrypt_file toyPrims ⟨[9], []⟩ emptyFileWorld "/home/e.bin").2.1
        "/home/e.bin").2.1.fs "/home/e.bin" = some (Entry.file [] 420) :=
  ⟨C6_container_layout toyPrims ⟨[9], []⟩ emptyFileWorld "/home/e.bin" [] 420
      (by rw [toy_selectCipher]; exact toyAEAD_tagLen16)
      (by rw [toy_selectCipher]; exact toyAEAD_ctLenEq)
      (by decide) (by decide) (by decide),
    by decide, by decide⟩

/-- Witness for C7 on the four kinds of paths the claim names. -/
theorem C7_should_encrypt_policy_witness :
    should_encrypt sampleFS "/proc/cpuinfo" = false ∧
    should_encrypt sampleFS "/home/b.enc" = false ∧
    should_encrypt sampleFS "/home" = false ∧
    should_encrypt sampleFS "/home/a.txt" = true :=
  ⟨C7_should_encrypt_policy.1 sampleFS "/proc/cpuinfo" "/proc/" (by decide)
      (by decide),
    C7_should_encrypt_policy.2.1 sampleFS "/home/b.enc" ".enc" (by decide)
      (by decide),
    C7_should_encrypt_policy.2.2.1 sampleFS "/home" (by decide),
    C7_should_encrypt_policy.2.2.2 sampleFS "/home/a.txt" (by decide) (by decide)
      (by decide)⟩

/-- Witness for C8: creating the keystore in an empty filesystem and reading
it back. -/
theorem C8_keystore_load_or_create_witness :
    ∃ w' : World,
      init_keystore toyPrims emptyWorld = .ok (toyPrims.rand 0 32, w') ∧
      w'.fs CONFIG_keystore = some (Entry.file (toyPrims.rand 0 32) 0o600) ∧
      (∀ q, q ≠ CONFIG_keystore → w'.fs q = emptyWorld.fs q) ∧
      (∀ r, init_keystore toyPrims ⟨w'.fs, r⟩
          = .ok (toyPrims.rand 0 32, ⟨w'.fs, r⟩)) :=
  (C8_keystore_load_or_create toyPrims emptyWorld).2 (by decide) (by decide)

/-- Witness for C9: the first file's transform fails (its temp path is a
directory), the failure is logged, and the walk continues with the rest. -/
theorem C9_per_file_errors_contained_witness :
    processFiles toyPrims ⟨[3], []⟩ dirCollisionWorld ["/v/a", "/v/b"]
      = ((processFiles toyPrims
            (encrypt_file toyPrims ⟨[3], []⟩ dirCollisionWorld "/v/a").1
            (encrypt_file toyPrims ⟨[3], []⟩ dirCollisionWorld "/v/a").2.1
            ["/v/b"]).1,
          (processFiles toyPrims
            (encrypt_file toyPrims ⟨[3], []⟩ dirCollisionWorld "/v/a").1
            (encrypt_file toyPrims ⟨[3], []⟩ dirCollisionWorld "/v/a").2.1
            ["/v/b"]).2.1,
          .failed "/v/a" (.isADirectory ("/v/a" ++ ".enc"))
            :: (processFiles toyPrims
                (encrypt_file toyPrims ⟨[3], []⟩ dirCollisionWorld "/v/a").1
                (encrypt_file toyPrims ⟨[3], []⟩ dirCollisionWorld "/v/a").2.1
                ["/v/b"]).2.2) :=
  C9_per_file_errors_contained.2.2 toyPrims ⟨[3], []⟩ dirCollisionWorld "/v/a"
    ["/v/b"]
    (encrypt_file toyPrims ⟨[3], []⟩ dirCollisionWorld "/v/a").1
    (encrypt_file toyPrims ⟨[3], []⟩ dirCollisionWorld "/v/a").2.1
    (.isADirectory ("/v/a" ++ ".enc"))
    (by decide)
    (Prod.ext rfl (Prod.ext rfl (by decide)))

/-- Witness for C10: a 3-byte keystore is accepted as the master key. -/
theorem C10_short_keystore_accepted_witness :
    init_keystore toyPrims shortKeyWorld = .ok ([7, 8, 9], shortKeyWorld) ∧
    newEngine toyPrims shortKeyWorld = .ok (⟨[7, 8, 9], []⟩, shortKeyWorld) :=
  C10_short_keystore_accepted toyPrims shortKeyWorld [7, 8, 9] 384 (by decide)
    (by decide)

end LinuxEncrypter
